import Mathlib

/-!
Shallow embedding of the mail intake and retrieval gateway (`main.go`).

Strings are modelled as lists of characters (`Str`), so that Go's
byte/char level operations (`strings.Split`, `strings.Index`,
`strings.EqualFold`) become structurally recursive Lean functions that
theorems can reason about directly.

External library calls are modelled as follows:
* `mail.ParseAddress` (external parser) is an explicit parameter
  `parseAddress : Str → Option Str` of `Rcpt`, returning the parsed
  `addr.Address` on success and `none` when parsing fails;
* the Redis client is modelled as an explicit `Store` state (association
  lists for counters, expiries and inbox lists) threaded through the
  operations, with `INCR`/`EXPIRE`/`LPUSH`/`LRANGE`/`DEL` given their
  documented semantics on that state;
* `io.ReadAll(part.Body)` returns the bytes read up to the first error
  together with an optional error; an inline part is therefore modelled
  as carrying both the returned bytes and the optional error that the
  Go code discards with `b, _ := io.ReadAll(part.Body)`.
-/

namespace Mailserver

/-- Strings as lists of characters. -/
abbrev Str := List Char

/-- Converts a Lean string literal to the `Str` model. -/
def str (s : String) : Str := s.toList

/-- Go `strings.Split(s, sep)` for a single-character separator: the
subslices of `s` between instances of `sep`; `[""]` for the empty string. -/
def goSplit (sep : Char) : Str → List Str
  | [] => [[]]
  | c :: rest =>
    if c = sep then [] :: goSplit sep rest
    else
      match goSplit sep rest with
      | [] => [[c]]
      | h :: t => (c :: h) :: t

/-- Go `strings.EqualFold` restricted to simple case folding: the two
strings are equal after mapping every character to lower case. -/
def equalFold (a b : Str) : Bool := a.map Char.toLower == b.map Char.toLower

/-- Go `parseUsername` (main.go:164-170): the portion of `addr` before the
first `'@'` (`strings.Index`), or all of `addr` when it has no `'@'`. -/
def parseUsername (addr : Str) : Str :=
  match addr.findIdx? (fun c => c = '@') with
  | none => addr
  | some at_ => addr.take at_

/-- The domain part of an address: entry 1 of `strings.Split(addr, "@")`,
as read by `Session.Rcpt` (main.go:57-62). -/
def domainPart (addr : Str) : Str := (goSplit '@' addr).getD 1 []

/-- The SMTP session's envelope state (`Session`, main.go:40-44).
Go's `from`/`to` fields are named `mailFrom`/`rcptTo` here because `from`
is a Lean keyword. -/
structure Session where
  mailFrom : Str
  rcptTo : Str
deriving DecidableEq

/-- Go `Session.Mail` (main.go:46-49): records the sender verbatim, never fails. -/
def Mail (s : Session) (f : Str) : Session := { s with mailFrom := f }

/-- The error classes `Session.Rcpt` can produce. `parseError` is the
error returned by `mail.ParseAddress`; `invalidRecipient` the
`"invalid recipient address"` error (main.go:59); `domainNotAllowed` the
`"550 5.1.1 recipient domain not allowed"` error (main.go:65). -/
inductive RcptError where
  | parseError (toAddr : Str)
  | invalidRecipient (addr : Str)
  | domainNotAllowed (domain : Str)
deriving DecidableEq

/-- Whether an `RcptError` is in the `InvalidRecipient` class (the address
could not be parsed, or did not split into exactly two parts at `'@'`). -/
def RcptError.isInvalidRecipientClass : RcptError → Bool
  | .parseError _ => true
  | .invalidRecipient _ => true
  | .domainNotAllowed _ => false

/-- Go `Session.Rcpt` (main.go:51-71): parse the recipient, require exactly
two `'@'`-separated parts, compare the domain case-insensitively against
the configured allowed domain, and on success record the parsed address
as the transaction's recipient. -/
def Rcpt (parseAddress : Str → Option Str) (allowedDomain : Str)
    (s : Session) (toAddr : Str) : Except RcptError Session :=
  match parseAddress toAddr with
  | none => .error (.parseError toAddr)
  | some addr =>
    let parts := goSplit '@' addr
    if parts.length ≠ 2 then .error (.invalidRecipient addr)
    else
      let domain := parts.getD 1 []
      if equalFold domain allowedDomain then .ok { s with rcptTo := addr }
      else .error (.domainNotAllowed domain)

/-- One MIME part as delivered by `mr.NextPart()` and classified by the
switch on its header type (main.go:103-118). An inline part carries its
declared content type, the bytes `io.ReadAll(part.Body)` returned
(`bodyRead`, everything read before any error) and the optional read
error the code discards (`bodyErr`). An attachment part contributes only
its declared filename. -/
inductive Part where
  | inlinePart (contentType : Str) (bodyRead : Str) (bodyErr : Option Str)
  | attachmentPart (filename : Str)
deriving DecidableEq

/-- The content fields `Session.Data` accumulates over the part loop
(main.go:90-92). -/
structure Fields where
  bodyText : Str
  bodyHTML : Str
  attachments : List Str
deriving DecidableEq

/-- The initial accumulator: empty bodies, empty attachment list. -/
def Fields.init : Fields := ⟨[], [], []⟩

/-- One iteration of the part loop (main.go:103-118): `text/html` inline
parts overwrite `bodyHTML`, `text/plain` inline parts overwrite
`bodyText`, any other inline content type is ignored, and an attachment
appends its filename. The body read error is discarded
(`b, _ := io.ReadAll(part.Body)`). -/
def applyPart (st : Fields) : Part → Fields
  | .inlinePart ct body _ =>
    if ct = str "text/html" then { st with bodyHTML := body }
    else if ct = str "text/plain" then { st with bodyText := body }
    else st
  | .attachmentPart filename =>
    { st with attachments := st.attachments ++ [filename] }

/-- The part loop of `Session.Data` (main.go:94-119). The reader yields
`parts` in stream order and then terminates with either end-of-stream
(`term = none`, the `io.EOF` break) or a framing error
(`term = some e`, returned and aborting the transaction). -/
def decompose (parts : List Part) (term : Option Str) : Except Str Fields :=
  match term with
  | some e => .error e
  | none => .ok (parts.foldl applyPart Fields.init)

/-- The external Redis store, modelled as association lists: integer
counters (`INCR`), expiries in seconds (`EXPIRE`), and per-key lists with
newest entry first (`LPUSH`/`LRANGE`/`DEL`). Inbox entries are the raw
stored strings (JSON-encoded records in the Go code). -/
structure Store where
  counters : List (Str × Nat)
  expiries : List (Str × Nat)
  inboxes : List (Str × List Str)
deriving DecidableEq

/-- The store with no keys. -/
def Store.empty : Store := ⟨[], [], []⟩

/-- Reads the first binding of `k`, or `d` when `k` is absent. -/
def kvGet {α : Type} (m : List (Str × α)) (k : Str) (d : α) : α :=
  ((m.find? (fun p => p.1 == k)).map Prod.snd).getD d

/-- Binds `k` to `v`, shadowing any earlier binding. -/
def kvSet {α : Type} (m : List (Str × α)) (k : Str) (v : α) : List (Str × α) :=
  (k, v) :: m

/-- Deletes every binding of `k` (Redis `DEL`). -/
def kvDel {α : Type} (m : List (Str × α)) (k : Str) : List (Str × α) :=
  m.filter (fun p => p.1 != k)

/-- Go `allow` (main.go:144-150): atomically `INCR` the counter at `key`,
`EXPIRE` it to `window`, and report whether the post-increment count is
at most `limit`. The counter is incremented on every call, allowed or
not. -/
def allow (st : Store) (key : Str) (limit : Nat) (window : Nat) : Bool × Store :=
  let n := kvGet st.counters key 0 + 1
  (decide (n ≤ limit),
    { st with counters := kvSet st.counters key n,
              expiries := kvSet st.expiries key window })

/-- The Redis key of a username's inbox (`"inbox:%s"`). -/
def inboxKey (username : Str) : Str := str "inbox:" ++ username

/-- The rate-limit key `Session.Data` uses for a sender (`"smtp:%s"`,
main.go:81). -/
def smtpRateKey (sender : Str) : Str := str "smtp:" ++ sender

/-- The rate-limit key the API middleware uses for a client address
(`"api:%s"`, main.go:210). -/
def apiRateKey (ip : Str) : Str := str "api:" ++ ip

/-- Redis `LPUSH key entry` followed by `EXPIRE key 24h` (main.go:135-136):
pushes the entry at the head of the key's list and resets the whole
list's expiry to 24 hours (86400 seconds). -/
def lpushInbox (st : Store) (key : Str) (entry : Str) : Store :=
  { st with inboxes := kvSet st.inboxes key (entry :: kvGet st.inboxes key []),
            expiries := kvSet st.expiries key 86400 }

/-- Redis `LRANGE (inboxKey username) 0 49` (main.go:224): the first 50 entries
of the stored list, newest first; empty when the key is absent. -/
def listInbox (st : Store) (username : Str) : List Str :=
  (kvGet st.inboxes (inboxKey username) []).take 50

/-- The persisted Message Record built by `Session.Data`
(main.go:122-131). `id` is the nanosecond timestamp and `receivedAt` the
epoch-second timestamp of the two `time.Now()` calls. -/
structure Record where
  id : Nat
  mailFrom : Str
  rcptTo : Str
  subject : Str
  bodyText : Str
  bodyHTML : Str
  attachments : List Str
  receivedAt : Nat
deriving DecidableEq

/-- The error classes `Session.Data` can produce: the rate-limit
rejection (main.go:82), a `mail.CreateReader` failure (main.go:87), or a
framing error from `mr.NextPart()` (main.go:100). -/
inductive DataError where
  | rateLimited
  | createReaderFailed (e : Str)
  | framingError (e : Str)
deriving DecidableEq

/-- The raw mail stream handed to `Session.Data`: either
`mail.CreateReader` fails outright, or it yields a header (subject), the
sequence of parts, and the loop terminator (`none` = clean EOF,
`some e` = framing error from `NextPart`). -/
inductive MailStream where
  | unreadable (e : Str)
  | readable (subject : Str) (parts : List Part) (term : Option Str)
deriving DecidableEq

/-- Go `Session.Data` (main.go:77-139): first the admission check on
`smtp:<sender>` with limit 50 and a one-minute window (its `INCR` side
effect persists even when the call is rejected); then
`mail.CreateReader`; then the part loop; on success the record is built,
JSON-encoded by the `encode` parameter (`json.Marshal`), and pushed onto
`inbox:<local part of the recipient>` with a 24-hour expiry. On any
error the transaction aborts with no inbox write. -/
def Data (encode : Record → Str) (st : Store) (s : Session)
    (nowNano nowSec : Nat) (stream : MailStream) :
    Except DataError Unit × Store :=
  let p := allow st (smtpRateKey s.mailFrom) 50 60
  if p.1 = false then (.error .rateLimited, p.2)
  else
    match stream with
    | .unreadable e => (.error (.createReaderFailed e), p.2)
    | .readable subject parts term =>
      match decompose parts term with
      | .error e => (.error (.framingError e), p.2)
      | .ok fields =>
        let username := parseUsername s.rcptTo
        let record : Record :=
          { id := nowNano, mailFrom := s.mailFrom, rcptTo := s.rcptTo,
            subject := subject, bodyText := fields.bodyText,
            bodyHTML := fields.bodyHTML, attachments := fields.attachments,
            receivedAt := nowSec }
        (.ok (), lpushInbox p.2 (inboxKey username) (encode record))

/-- The `GET /emails/:username` handler (main.go:219-237): read up to 50
stored entries, `json.Unmarshal` each one into `v` ignoring the error,
and append `v` to the output unconditionally — an entry that fails to
decode contributes `none` (Go's nil map). Returns HTTP 200 with the
accumulated list. `decode` models `json.Unmarshal`. -/
def getEmails {α : Type} (decode : Str → Option α) (st : Store)
    (username : Str) : Nat × List (Option α) :=
  (200, (listInbox st username).map decode)

/-- Modelled from the spec: the behaviour §4.5 describes for the list
endpoint, in which records that fail to decode are skipped silently.
Used only to compare the implemented handler against the spec's words. -/
def getEmailsSpecSkip {α : Type} (decode : Str → Option α) (st : Store)
    (username : Str) : Nat × List α :=
  (200, (listInbox st username).filterMap decode)

/-- The `DELETE /emails/:username` handler (main.go:239-254): `DEL` the
inbox key (never an error for an absent key) and respond HTTP 200 with a
confirmation. -/
def deleteEmails (st : Store) (username : Str) : Nat × Store :=
  (200, { st with inboxes := kvDel st.inboxes (inboxKey username) })

/-- The HTTPS middleware chain in registration order (main.go:206-217):
first the rate-limit middleware on `api:<client address>` with limit 100
and a one-minute window (429 when over), then the API-key middleware
(401 when the `X-API-KEY` header is empty or not a valid key), then the
route handler. `handler` abstracts the matched route; it receives the
store as updated by the middleware. -/
def handleApi (st : Store) (ip apiKeyHeader envKey : Str)
    (handler : Store → Nat × Store) : Nat × Store :=
  let p := allow st (apiRateKey ip) 100 60
  if p.1 = false then (429, p.2)
  else if apiKeyHeader = [] ∨ ¬ apiKeyHeader = envKey then (401, p.2)
  else handler p.2

theorem goSplit_ne_nil (sep : Char) (s : Str) : goSplit sep s ≠ [] := by
  cases s with
  | nil => simp [goSplit]
  | cons c rest =>
    simp only [goSplit]
    split
    · simp
    · cases h : goSplit sep rest <;> simp

/-- The number of pieces `goSplit` produces is one more than the number of
separators in the string. -/
theorem goSplit_length (sep : Char) (s : Str) :
    (goSplit sep s).length = s.count sep + 1 := by
  induction s with
  | nil => simp [goSplit]
  | cons c rest ih =>
    simp only [goSplit]
    by_cases hc : c = sep
    · simp [hc, List.count_cons, ih]
    · simp only [if_neg hc]
      cases h : goSplit sep rest with
      | nil => exact absurd h (goSplit_ne_nil sep rest)
      | cons y ys =>
        simp only [List.length_cons]
        rw [h] at ih
        simp only [List.length_cons] at ih
        simp [List.count_cons, hc, ih]

theorem kvGet_set_same {α : Type} (m : List (Str × α)) (k : Str) (v d : α) :
    kvGet (kvSet m k v) k d = v := by
  simp [kvGet, kvSet, List.find?_cons_of_pos]

theorem kvGet_set_other {α : Type} (m : List (Str × α)) (k k' : Str) (v : α)
    (d : α) (h : k' ≠ k) : kvGet (kvSet m k v) k' d = kvGet m k' d := by
  have : (k == k') = false := by
    simpa using fun hkk => h hkk.symm
  simp [kvGet, kvSet, List.find?_cons_of_neg, this]

/-- Whichever branch `Session.Data` takes, the counter map of the
resulting store is the input counter map with the sender's `smtp:` key
incremented by one. -/
theorem Data_counters (encode : Record → Str) (st : Store) (s : Session)
    (nowNano nowSec : Nat) (stream : MailStream) :
    (Data encode st s nowNano nowSec stream).2.counters
      = kvSet st.counters (smtpRateKey s.mailFrom)
          (kvGet st.counters (smtpRateKey s.mailFrom) 0 + 1) := by
  have hallow : (allow st (smtpRateKey s.mailFrom) 50 60).2.counters
      = kvSet st.counters (smtpRateKey s.mailFrom)
          (kvGet st.counters (smtpRateKey s.mailFrom) 0 + 1) := rfl
  by_cases hb : (allow st (smtpRateKey s.mailFrom) 50 60).1 = false
  · simp only [Data]
    rw [if_pos hb]
    exact hallow
  · simp only [Data]
    rw [if_neg hb]
    cases stream with
    | unreadable e => exact hallow
    | readable subject parts term =>
      cases term with
      | none => exact hallow
      | some e => exact hallow

/-- C1: for every recipient string passed to `Rcpt`, (i) if the address
parses, contains exactly one `'@'` and its domain part equals the
configured allowed domain case-insensitively, `Rcpt` succeeds and records
the parsed address as the transaction's recipient; (ii) if the address
cannot be parsed, or (iii) parses but lacks exactly one `'@'`, it fails
with an InvalidRecipient-class error; (iv) if it parses with exactly one
`'@'` but the domain differs from the allowed domain, it fails with the
DomainNotAllowed error. -/
theorem c1_rcpt_classification (parseAddress : Str → Option Str)
    (allowedDomain : Str) (s : Session) (toAddr : Str) :
    (∀ addr, parseAddress toAddr = some addr → addr.count '@' = 1 →
        equalFold (domainPart addr) allowedDomain = true →
        Rcpt parseAddress allowedDomain s toAddr
          = .ok { s with rcptTo := addr }) ∧
    (parseAddress toAddr = none →
        ∃ err, Rcpt parseAddress allowedDomain s toAddr = .error err ∧
          err.isInvalidRecipientClass = true) ∧
    (∀ addr, parseAddress toAddr = some addr → addr.count '@' ≠ 1 →
        ∃ err, Rcpt parseAddress allowedDomain s toAddr = .error err ∧
          err.isInvalidRecipientClass = true) ∧
    (∀ addr, parseAddress toAddr = some addr → addr.count '@' = 1 →
        equalFold (domainPart addr) allowedDomain = false →
        Rcpt parseAddress allowedDomain s toAddr
          = .error (.domainNotAllowed (domainPart addr))) := by
  refine ⟨?_, ?_, ?_, ?_⟩
  · intro addr hp hc hf
    have hl : ¬ ((goSplit '@' addr).length ≠ 2) := by
      rw [goSplit_length, hc]
      decide
    simp only [domainPart] at hf
    simp only [Rcpt, hp]
    rw [if_neg hl, if_pos hf]
  · intro hp
    refine ⟨.parseError toAddr, ?_, rfl⟩
    simp only [Rcpt, hp]
  · intro addr hp hc
    have hl : (goSplit '@' addr).length ≠ 2 := by
      rw [goSplit_length]
      omega
    refine ⟨.invalidRecipient addr, ?_, rfl⟩
    simp only [Rcpt, hp]
    rw [if_pos hl]
  · intro addr hp hc hf
    have hl : ¬ ((goSplit '@' addr).length ≠ 2) := by
      rw [goSplit_length, hc]
      decide
    have hf' : ¬ (equalFold ((goSplit '@' addr).getD 1 []) allowedDomain = true) := by
      simp only [domainPart] at hf
      rw [hf]
      decide
    simp only [domainPart]
    simp only [Rcpt, hp]
    rw [if_neg hl, if_neg hf']

theorem c1_rcpt_classification_witness :
    Rcpt (fun _ => some (str "bob@Example.COM")) (str "example.com")
        ⟨[], []⟩ (str "bob@Example.COM")
      = .ok ⟨[], str "bob@Example.COM"⟩ :=
  (c1_rcpt_classification (fun _ => some (str "bob@Example.COM"))
      (str "example.com") ⟨[], []⟩ (str "bob@Example.COM")).1
    (str "bob@Example.COM") rfl (by decide) (by decide)

/-- C2: when the sender's counter has already reached the limit of 50,
`Session.Data` fails with the rate-limit error — before any parsing, for
every possible mail stream including unreadable ones — and the store's
inbox keys are unchanged. -/
theorem c2_rate_limited_data (encode : Record → Str) (st : Store)
    (s : Session) (nowNano nowSec : Nat) (stream : MailStream)
    (h : 50 ≤ kvGet st.counters (smtpRateKey s.mailFrom) 0) :
    (Data encode st s nowNano nowSec stream).1 = .error .rateLimited ∧
    (Data encode st s nowNano nowSec stream).2.inboxes = st.inboxes := by
  have hb : (allow st (smtpRateKey s.mailFrom) 50 60).1 = false := by
    simp only [allow]
    simpa using by omega
  constructor
  · simp only [Data]
    rw [if_pos hb]
  · simp only [Data]
    rw [if_pos hb]
    rfl

theorem c2_rate_limited_data_witness :
    (Data (fun _ => []) ⟨[(str "smtp:a", 50)], [], []⟩ ⟨str "a", str "b@c"⟩
        0 0 (.readable [] [] none)).1 = .error .rateLimited :=
  (c2_rate_limited_data (fun _ => []) ⟨[(str "smtp:a", 50)], [], []⟩
      ⟨str "a", str "b@c"⟩ 0 0 (.readable [] [] none) (by decide)).1

/-- Appends the entries in order to the username's inbox through the
store operation `Session.Data` performs (`LPUSH` + `EXPIRE`). -/
def appendMany (st : Store) (username : Str) (entries : List Str) : Store :=
  entries.foldl (fun acc e => lpushInbox acc (inboxKey username) e) st

theorem appendMany_inbox (st : Store) (u : Str) (es : List Str) :
    kvGet (appendMany st u es).inboxes (inboxKey u) []
      = es.reverse ++ kvGet st.inboxes (inboxKey u) [] := by
  induction es generalizing st with
  | nil => simp [appendMany]
  | cons e es ih =>
    have hstep : appendMany st u (e :: es)
        = appendMany (lpushInbox st (inboxKey u) e) u es := rfl
    rw [hstep, ih]
    have hpush : kvGet (lpushInbox st (inboxKey u) e).inboxes (inboxKey u) []
        = e :: kvGet st.inboxes (inboxKey u) [] := by
      simp [lpushInbox, kvGet_set_same]
    rw [hpush]
    simp

/-- C3: appending `N` records to an initially empty (or absent) inbox `u`
and then listing `u` returns exactly the last `min(N, 50)` appended
records, newest first (the `drop` keeps the last `min(N, 50)` entries and
the `reverse` puts them in reverse-append order). -/
theorem c3_append_list_roundtrip (st : Store) (u : Str) (es : List Str)
    (h : kvGet st.inboxes (inboxKey u) [] = []) :
    listInbox (appendMany st u es) u = (es.drop (es.length - 50)).reverse := by
  simp only [listInbox, appendMany_inbox, h, List.append_nil]
  exact List.take_reverse

theorem c3_append_list_roundtrip_witness :
    listInbox (appendMany Store.empty (str "u") [str "r1", str "r2"]) (str "u")
      = (([str "r1", str "r2"] : List Str).drop
          (([str "r1", str "r2"] : List Str).length - 50)).reverse :=
  c3_append_list_roundtrip Store.empty (str "u") [str "r1", str "r2"] (by decide)

/-- Whether a part is an inline `text/plain` part. -/
def Part.isPlainInline : Part → Bool
  | .inlinePart ct _ _ => ct == str "text/plain"
  | .attachmentPart _ => false

/-- Whether a part is an inline `text/html` part. -/
def Part.isHtmlInline : Part → Bool
  | .inlinePart ct _ _ => ct == str "text/html"
  | .attachmentPart _ => false

theorem applyPart_bodyText_of_not_plain (st : Fields) (p : Part)
    (h : p.isPlainInline = false) : (applyPart st p).bodyText = st.bodyText := by
  cases p with
  | inlinePart ct b e =>
    simp only [Part.isPlainInline, beq_eq_false_iff_ne, ne_eq] at h
    simp only [applyPart]
    by_cases hh : ct = str "text/html"
    · rw [if_pos hh]
    · rw [if_neg hh, if_neg h]
  | attachmentPart f => simp [applyPart]

theorem applyPart_bodyHTML_of_not_html (st : Fields) (p : Part)
    (h : p.isHtmlInline = false) : (applyPart st p).bodyHTML = st.bodyHTML := by
  cases p with
  | inlinePart ct b e =>
    simp only [Part.isHtmlInline, beq_eq_false_iff_ne, ne_eq] at h
    simp only [applyPart]
    rw [if_neg h]
    by_cases hp : ct = str "text/plain"
    · rw [if_pos hp]
    · rw [if_neg hp]
  | attachmentPart f => simp [applyPart]

theorem applyPart_plain_bodyText (st : Fields) (b : Str) (e : Option Str) :
    (applyPart st (.inlinePart (str "text/plain") b e)).bodyText = b := by
  have hne : ¬ (str "text/plain" = str "text/html") := by decide
  simp only [applyPart]
  rw [if_neg hne]
  simp

theorem applyPart_html_bodyHTML (st : Fields) (b : Str) (e : Option Str) :
    (applyPart st (.inlinePart (str "text/html") b e)).bodyHTML = b := by
  simp [applyPart]

theorem foldl_bodyText_of_no_plain (l : List Part) (st : Fields)
    (h : ∀ p ∈ l, p.isPlainInline = false) :
    (l.foldl applyPart st).bodyText = st.bodyText := by
  induction l generalizing st with
  | nil => rfl
  | cons p l ih =>
    rw [List.foldl_cons, ih _ (fun q hq => h q (List.mem_cons_of_mem _ hq)),
      applyPart_bodyText_of_not_plain st p (h p (List.mem_cons_self _ _))]

theorem foldl_bodyHTML_of_no_html (l : List Part) (st : Fields)
    (h : ∀ p ∈ l, p.isHtmlInline = false) :
    (l.foldl applyPart st).bodyHTML = st.bodyHTML := by
  induction l generalizing st with
  | nil => rfl
  | cons p l ih =>
    rw [List.foldl_cons, ih _ (fun q hq => h q (List.mem_cons_of_mem _ hq)),
      applyPart_bodyHTML_of_not_html st p (h p (List.mem_cons_self _ _))]

/-- C4: when a multipart message contains exactly two inline `text/plain`
parts, decomposition yields the second part's content as `body_text`
(last-wins, no concatenation); the same holds for two inline `text/html`
parts and `body_html`; and an inline part of any other content type
leaves the accumulated fields unchanged (silently ignored). -/
theorem c4_last_wins :
    (∀ (l1 l2 l3 : List Part) (b1 b2 : Str) (e1 e2 : Option Str),
      (∀ p ∈ l1 ++ l2 ++ l3, p.isPlainInline = false) →
      ∃ f, decompose (l1 ++ [.inlinePart (str "text/plain") b1 e1] ++ l2
          ++ [.inlinePart (str "text/plain") b2 e2] ++ l3) none = .ok f ∧
        f.bodyText = b2) ∧
    (∀ (l1 l2 l3 : List Part) (b1 b2 : Str) (e1 e2 : Option Str),
      (∀ p ∈ l1 ++ l2 ++ l3, p.isHtmlInline = false) →
      ∃ f, decompose (l1 ++ [.inlinePart (str "text/html") b1 e1] ++ l2
          ++ [.inlinePart (str "text/html") b2 e2] ++ l3) none = .ok f ∧
        f.bodyHTML = b2) ∧
    (∀ (st : Fields) (ct b : Str) (e : Option Str),
      ct ≠ str "text/plain" → ct ≠ str "text/html" →
      applyPart st (.inlinePart ct b e) = st) := by
  refine ⟨?_, ?_, ?_⟩
  · intro l1 l2 l3 b1 b2 e1 e2 hno
    refine ⟨_, rfl, ?_⟩
    have h3 : ∀ p ∈ l3, p.isPlainInline = false := fun p hp =>
      hno p (by simp [hp])
    rw [List.foldl_append, List.foldl_append, List.foldl_append,
      List.foldl_append, List.foldl_cons, List.foldl_nil,
      List.foldl_cons, List.foldl_nil,
      foldl_bodyText_of_no_plain l3 _ h3]
    exact applyPart_plain_bodyText _ _ _
  · intro l1 l2 l3 b1 b2 e1 e2 hno
    refine ⟨_, rfl, ?_⟩
    have h3 : ∀ p ∈ l3, p.isHtmlInline = false := fun p hp =>
      hno p (by simp [hp])
    rw [List.foldl_append, List.foldl_append, List.foldl_append,
      List.foldl_append, List.foldl_cons, List.foldl_nil,
      List.foldl_cons, List.foldl_nil,
      foldl_bodyHTML_of_no_html l3 _ h3]
    exact applyPart_html_bodyHTML _ _ _
  · intro st ct b e h1 h2
    simp only [applyPart]
    rw [if_neg h2, if_neg h1]

theorem c4_last_wins_witness :
    ∃ f, decompose ([] ++ [Part.inlinePart (str "text/plain") (str "a") none]
        ++ [Part.attachmentPart (str "f")]
        ++ [Part.inlinePart (str "text/plain") (str "b") none] ++ []) none
      = .ok f ∧ f.bodyText = str "b" :=
  c4_last_wins.1 [] [Part.attachmentPart (str "f")] [] (str "a") (str "b")
    none none (by decide)

/-- C5 (amended): the list endpoint still succeeds (HTTP 200) when stored
entries fail to decode, and the successfully decoded records appear in
order, but undecodable entries are not skipped — the handler appends the
zero value for them, so the response has exactly one element per stored
entry. -/
theorem c5_decode_failures_not_skipped {α : Type} (decode : Str → Option α)
    (st : Store) (u : Str) :
    (getEmails decode st u).1 = 200 ∧
    (getEmails decode st u).2.length = (listInbox st u).length ∧
    (getEmails decode st u).2.filterMap id = (getEmailsSpecSkip decode st u).2 := by
  refine ⟨rfl, by simp [getEmails], ?_⟩
  simp [getEmails, getEmailsSpecSkip, List.filterMap_map, Function.comp]

theorem c5_counterexample :
    ((getEmails (fun s => if s == str "g" then some (1 : Nat) else none)
        ⟨[], [], [(str "inbox:u", [str "g", str "bad"])]⟩ (str "u")).2).length
      ≠ ((getEmailsSpecSkip (fun s => if s == str "g" then some (1 : Nat) else none)
        ⟨[], [], [(str "inbox:u", [str "g", str "bad"])]⟩ (str "u")).2).length := by
  decide

/-- C6 (amended): the admission counter `Session.Data` consults lives
under the key `smtp:<sender>` — that counter is incremented by exactly
one on every `Data` call and every other counter key is untouched. -/
theorem c6_data_counter_key (encode : Record → Str) (st : Store)
    (s : Session) (nowNano nowSec : Nat) (stream : MailStream) :
    kvGet (Data encode st s nowNano nowSec stream).2.counters
        (smtpRateKey s.mailFrom) 0
      = kvGet st.counters (smtpRateKey s.mailFrom) 0 + 1 ∧
    ∀ k, k ≠ smtpRateKey s.mailFrom →
      kvGet (Data encode st s nowNano nowSec stream).2.counters k 0
        = kvGet st.counters k 0 := by
  rw [Data_counters]
  exact ⟨kvGet_set_same _ _ _ _, fun k hk => kvGet_set_other _ _ _ _ _ hk⟩

theorem c6_data_counter_key_witness :
    kvGet (Data (fun _ => []) Store.empty ⟨str "a", str "b@c"⟩ 0 0
        (.readable [] [] none)).2.counters (str "api:a") 0
      = kvGet Store.empty.counters (str "api:a") 0 :=
  (c6_data_counter_key (fun _ => []) Store.empty ⟨str "a", str "b@c"⟩ 0 0
      (.readable [] [] none)).2 (str "api:a") (by decide)

theorem c6_counterexample :
    kvGet (Data (fun _ => []) Store.empty ⟨str "a", str "b@d"⟩ 0 0
        (.readable [] [] none)).2.counters (str "protocol:" ++ str "a") 0 = 0 ∧
    kvGet (Data (fun _ => []) Store.empty ⟨str "a", str "b@d"⟩ 0 0
        (.readable [] [] none)).2.counters (str "smtp:" ++ str "a") 0 = 1 := by
  decide

/-- Iterates `allow` on one key within a single live window, returning
the final store and how many of the calls were admitted. -/
def iterAllow (st : Store) (key : Str) (limit window : Nat) : Nat → Store × Nat
  | 0 => (st, 0)
  | n + 1 =>
    let p := allow st key limit window
    let q := iterAllow p.2 key limit window n
    (q.1, q.2 + (if p.1 then 1 else 0))

theorem iterAllow_admitted_le (key : Str) (limit window : Nat) :
    ∀ (n : Nat) (st : Store) (c : Nat), kvGet st.counters key 0 = c →
      (iterAllow st key limit window n).2 ≤ limit - c := by
  intro n
  induction n with
  | zero => intro st c _; simp [iterAllow]
  | succ n ih =>
    intro st c hc
    have hcnt : kvGet (allow st key limit window).2.counters key 0 = c + 1 := by
      rw [show (allow st key limit window).2.counters
          = kvSet st.counters key (kvGet st.counters key 0 + 1) from rfl,
        kvGet_set_same, hc]
    have hrec := ih (allow st key limit window).2 (c + 1) hcnt
    have hallow1 : (allow st key limit window).1
        = decide (c + 1 ≤ limit) := by
      rw [show (allow st key limit window).1
          = decide (kvGet st.counters key 0 + 1 ≤ limit) from rfl, hc]
    simp only [iterAllow]
    by_cases hb : c + 1 ≤ limit
    · rw [hallow1, if_pos (by simpa using hb)]
      omega
    · rw [hallow1, if_neg (by simpa using hb)]
      omega

/-- C7 (amended): starting from a fresh counter, the number of admitted
(`true`-returning) `allow` calls within one live window never exceeds the
limit; the stored counter itself keeps incrementing past the limit. -/
theorem c7_admitted_bounded (st : Store) (key : Str) (limit window n : Nat)
    (h : kvGet st.counters key 0 = 0) :
    (iterAllow st key limit window n).2 ≤ limit := by
  have := iterAllow_admitted_le key limit window n st 0 h
  omega

theorem c7_admitted_bounded_witness :
    (iterAllow Store.empty (str "k") 50 60 3).2 ≤ 50 :=
  c7_admitted_bounded Store.empty (str "k") 50 60 3 (by decide)

theorem c7_counterexample :
    kvGet (iterAllow Store.empty (str "k") 50 60 51).1.counters (str "k") 0
        = 51 ∧
    ¬ (kvGet (iterAllow Store.empty (str "k") 50 60 51).1.counters
        (str "k") 0 ≤ 50) := by
  decide

/-- Erases the body read error of an inline part. -/
def clearBodyErr : Part → Part
  | .inlinePart ct b _ => .inlinePart ct b none
  | .attachmentPart f => .attachmentPart f

theorem applyPart_clearBodyErr (st : Fields) (p : Part) :
    applyPart st (clearBodyErr p) = applyPart st p := by
  cases p <;> rfl

theorem foldl_clearBodyErr (l : List Part) (st : Fields) :
    (l.map clearBodyErr).foldl applyPart st = l.foldl applyPart st := by
  induction l generalizing st with
  | nil => rfl
  | cons p l ih =>
    rw [List.map_cons, List.foldl_cons, List.foldl_cons,
      applyPart_clearBodyErr, ih]

/-- C8 (amended): an error while decoding an individual part's body never
fails decomposition — erasing all body read errors leaves the result
unchanged, and decomposition fails exactly when the overall framing is
invalid. The affected field is set to the bytes read before the error
(`bodyRead`), which need not be empty. -/
theorem c8_body_errors_tolerated (parts : List Part) (term : Option Str) :
    decompose (parts.map clearBodyErr) term = decompose parts term ∧
    (∀ e, decompose parts term = .error e ↔ term = some e) ∧
    (∀ (st : Fields) (b : Str) (e : Option Str),
      (applyPart st (.inlinePart (str "text/plain") b e)).bodyText = b) ∧
    (∀ (st : Fields) (b : Str) (e : Option Str),
      (applyPart st (.inlinePart (str "text/html") b e)).bodyHTML = b) := by
  refine ⟨?_, ?_, ?_, ?_⟩
  · cases term with
    | some e => rfl
    | none =>
      simp only [decompose]
      rw [foldl_clearBodyErr]
  · intro e
    cases term with
    | some e0 => simp [decompose]
    | none => simp [decompose]
  · intro st b e
    exact applyPart_plain_bodyText st b e
  · intro st b e
    exact applyPart_html_bodyHTML st b e

theorem c8_counterexample :
    decompose [Part.inlinePart (str "text/plain") (str "par")
        (some (str "read error"))] none
      = .ok ⟨str "par", [], []⟩ ∧ str "par" ≠ [] :=
  ⟨rfl, by decide⟩

theorem kvGet_del_same {α : Type} (m : List (Str × α)) (k : Str) (d : α) :
    kvGet (kvDel m k) k d = d := by
  have hfind : (kvDel m k).find? (fun p => p.1 == k) = none := by
    rw [List.find?_eq_none]
    intro x hx
    have hmem := List.of_mem_filter hx
    simpa using hmem
  unfold kvGet
  rw [hfind]
  rfl

theorem kvDel_idem {α : Type} (m : List (Str × α)) (k : Str) :
    kvDel (kvDel m k) k = kvDel m k := by
  induction m with
  | nil => rfl
  | cons p m ih =>
    simp only [kvDel, List.filter_cons] at ih ⊢
    by_cases h : (p.1 != k) = true
    · rw [if_pos h]
      simp only [List.filter_cons]
      rw [if_pos h, ih]
    · rw [if_neg h]
      exact ih

/-- C9: the clear endpoint always succeeds (HTTP 200) for any prior
state of the inbox including non-existence, a subsequent list returns
the empty sequence, and clearing twice is the same as clearing once. -/
theorem c9_clear_idempotent (st : Store) (u : Str) :
    (deleteEmails st u).1 = 200 ∧
    listInbox (deleteEmails st u).2 u = [] ∧
    (deleteEmails (deleteEmails st u).2 u).2 = (deleteEmails st u).2 := by
  refine ⟨rfl, ?_, ?_⟩
  · simp [listInbox, deleteEmails, kvGet_del_same]
  · simp [deleteEmails, kvDel_idem]

/-- C10: the per-client-address admission check runs before credential
validation — with a missing or invalid `X-API-KEY` header the
`api:<client-ip>` counter is still incremented, and when the client is
over the limit the request is rejected with 429, not 401 (401 only when
under the limit). -/
theorem c10_rate_limit_before_auth (st : Store) (ip header envKey : Str)
    (handler : Store → Nat × Store)
    (hbad : header = [] ∨ header ≠ envKey) :
    kvGet (handleApi st ip header envKey handler).2.counters
        (apiRateKey ip) 0
      = kvGet st.counters (apiRateKey ip) 0 + 1 ∧
    (100 < kvGet st.counters (apiRateKey ip) 0 + 1 →
      (handleApi st ip header envKey handler).1 = 429) ∧
    (kvGet st.counters (apiRateKey ip) 0 + 1 ≤ 100 →
      (handleApi st ip header envKey handler).1 = 401) := by
  have hbadif : (header = [] ∨ ¬ header = envKey) := by
    rcases hbad with h | h
    exacts [Or.inl h, Or.inr h]
  have hallow1 : (allow st (apiRateKey ip) 100 60).1
      = decide (kvGet st.counters (apiRateKey ip) 0 + 1 ≤ 100) := rfl
  by_cases hle : kvGet st.counters (apiRateKey ip) 0 + 1 ≤ 100
  · have hb : ¬ ((allow st (apiRateKey ip) 100 60).1 = false) := by
      rw [hallow1]
      simp [hle]
    refine ⟨?_, fun hgt => absurd hle (by omega), fun _ => ?_⟩
    · simp only [handleApi]
      rw [if_neg hb, if_pos hbadif]
      exact kvGet_set_same _ _ _ _
    · simp only [handleApi]
      rw [if_neg hb, if_pos hbadif]
  · have hb : (allow st (apiRateKey ip) 100 60).1 = false := by
      rw [hallow1]
      simp [hle]
    refine ⟨?_, fun _ => ?_, fun hle2 => absurd hle2 hle⟩
    · simp only [handleApi]
      rw [if_pos hb]
      exact kvGet_set_same _ _ _ _
    · simp only [handleApi]
      rw [if_pos hb]

theorem c10_rate_limit_before_auth_witness :
    (handleApi ⟨[(str "api:ip1", 100)], [], []⟩ (str "ip1") [] (str "k")
        (fun s => (200, s))).1 = 429 :=
  (c10_rate_limit_before_auth ⟨[(str "api:ip1", 100)], [], []⟩ (str "ip1")
      [] (str "k") (fun s => (200, s)) (Or.inl rfl)).2.1 (by decide)

end Mailserver
